import Mathlib

/-!
# ICP-2020-MHD: vehicle registry, map scene and main-window step

A shallow embedding of

* `src/model/vehicles.cpp` (class `Vehicles`),
* `src/ui/map.cpp` (class `Map`),
* `src/ui/mapstreet.cpp` (class `MapStreet`),
* `src/ui/mainwindow.cpp` (`MainWindow::simulationStep`),

together with the small part of Qt the code calls (`QHash`, `QPoint`).
Objects reached through pointers are addressed by their index in a store;
C++ `int` values are `Int` (no arithmetic on identifiers is performed by the
code below), and the traffic-flow factor `flow / 100` is an exact rational.
The floating-point drawing arithmetic of `MapStreet::paint` is not modelled.
-/

namespace MHD

/-! ## Qt value types -/

/-- Integer point (Qt `QPoint`). -/
structure QPoint where
  x : Int
  y : Int
  deriving DecidableEq, Repr

/-! ## `QHash<int, T>` -/

/-- Keys of an entry list, in iteration order. -/
def entryKeys {α : Type} (es : List (Int × α)) : List Int :=
  es.map Prod.fst

/-- Entry list after `insert(k, v)`: an existing key keeps its node and gets
the new value, a new key gets a new node. -/
def insertEntry {α : Type} (k : Int) (v : α) : List (Int × α) → List (Int × α)
  | [] => [(k, v)]
  | e :: es => if e.1 = k then (k, v) :: es else e :: insertEntry k v es

/-- Entry list after `remove(k)`: every node with key `k` is dropped. -/
def removeEntry {α : Type} (k : Int) (es : List (Int × α)) : List (Int × α) :=
  es.filter (fun e => !decide (e.1 = k))

/-- Node lookup by key. -/
def findEntry {α : Type} (k : Int) : List (Int × α) → Option α
  | [] => none
  | e :: es => if e.1 = k then some e.2 else findEntry k es

/-- A `QHash<int, T>` that is only ever filled through `insert` (never
`insertMulti`): a sequence of nodes, listed in iteration order, with pairwise
different keys. Qt leaves the iteration order of a hash unspecified; the model
fixes one (insertion order), and no result below depends on that choice. -/
structure QHash (α : Type) where
  entries : List (Int × α)
  nodupKeys : (entryKeys entries).Nodup

namespace QHash

variable {α : Type}

/-- Default-constructed hash: no nodes. -/
def empty : QHash α := ⟨[], List.nodup_nil⟩

/-- Model of `contains(key)`. -/
def contains (h : QHash α) (key : Int) : Bool :=
  decide (key ∈ entryKeys h.entries)

/-- Model of `insert(key, value)`: "If there is already an item with the key,
that item's value is replaced with value." -/
def insert (h : QHash α) (key : Int) (value : α) : QHash α :=
  ⟨insertEntry key value h.entries, by
    have hn := h.nodupKeys
    generalize h.entries = es at hn
    have both : (∀ a, a ∈ entryKeys (insertEntry key value es) → a = key ∨ a ∈ entryKeys es) ∧
        (entryKeys (insertEntry key value es)).Nodup := by
      induction es with
      | nil => simp [entryKeys, insertEntry]
      | cons e es ih =>
        have hc : e.1 ∉ entryKeys es ∧ (entryKeys es).Nodup := by
          simpa [entryKeys] using hn
        obtain ⟨ih1, ih2⟩ := ih hc.2
        by_cases hk : e.1 = key
        · subst hk
          simp only [insertEntry, if_true, entryKeys, List.map_cons, List.mem_cons]
          exact ⟨fun a ha => Or.inr ha, by simpa [entryKeys] using hn⟩
        · simp only [insertEntry, hk, if_false, entryKeys, List.map_cons, List.mem_cons,
            List.nodup_cons]
          refine ⟨fun a ha => ?_, ?_, ih2⟩
          · rcases ha with ha | ha
            · exact Or.inr (Or.inl ha)
            · rcases ih1 a ha with h1 | h1
              · exact Or.inl h1
              · exact Or.inr (Or.inr h1)
          · intro hm
            rcases ih1 _ hm with h1 | h1
            · exact hk h1
            · exact hc.1 h1
    exact both.2⟩

/-- Model of `remove(key)`: the hash without the nodes of `key`, and the
number of nodes removed (old size minus new size). -/
def remove (h : QHash α) (key : Int) : QHash α × Int :=
  (⟨removeEntry key h.entries,
      h.nodupKeys.sublist ((List.filter_sublist h.entries).map Prod.fst)⟩,
   (h.entries.length : Int) - ((removeEntry key h.entries).length : Int))

/-- Model of `value(key)`: the stored value, or a default-constructed value
(`dflt`) when the hash has no node with that key. -/
def value (h : QHash α) (key : Int) (dflt : α) : α :=
  match findEntry key h.entries with
  | some v => v
  | none => dflt

/-- Model of `values()`: all values, in iteration order. -/
def values (h : QHash α) : List α :=
  h.entries.map Prod.snd

/-- Model of `keys()`: all keys, in iteration order. -/
def keys (h : QHash α) : List Int :=
  entryKeys h.entries

/-- Model of `size()`. -/
def size (h : QHash α) : Int :=
  (h.entries.length : Int)

end QHash

/-! ## `model/vehicles.cpp` -/

/-- Modelled from the spec: class `Vehicle` is declared in `model/vehicle.hpp`,
which is not among the sources. The spec gives a vehicle a unique identifier, a
reference to its line and a scalar distance travelled; the code below reads the
identifier with `GetIdNumber()` and the line with `GetLine()`. -/
structure Vehicle where
  id_number : Int
  line : String
  distance : Int
  deriving DecidableEq, Repr

/-- Accessor `Vehicle::GetIdNumber()`. -/
def Vehicle.GetIdNumber (v : Vehicle) : Int := v.id_number

/-- Accessor `Vehicle::GetLine()`. -/
def Vehicle.GetLine (v : Vehicle) : String := v.line

/-- Modelled from the spec: the data member `vehicles` of class `Vehicles` is
declared in `model/vehicles.hpp`, which is not among the sources. The spec's
registry "owns all live vehicles, keyed by identifier"; the member functions
called on it (`insert(key, value)`, `remove`, `value`, `values`, `size`) are
those of a `QHash<int, Vehicle>`, the container `simulation.hpp` also uses for
`move_log`. -/
structure Vehicles where
  vehicles : QHash Vehicle

namespace Vehicles

/-- Constructor `Vehicles::Vehicles() {}`: an empty registry. -/
def new : Vehicles := ⟨QHash.empty⟩

/-- Member function `void Vehicles::AddVehicle(Vehicle vehicle)`. -/
def AddVehicle (self : Vehicles) (vehicle : Vehicle) : Vehicles :=
  ⟨self.vehicles.insert vehicle.GetIdNumber vehicle⟩

/-- Member function `int Vehicles::RemoveVehicle(int id)`: the registry after
the call and the returned value. -/
def RemoveVehicle (self : Vehicles) (id : Int) : Vehicles × Int :=
  (⟨(self.vehicles.remove id).1⟩, (self.vehicles.remove id).2)

/-- Member function `Vehicle Vehicles::GetVehicle(int id)`; `dflt` is the
default-constructed `Vehicle` that `QHash::value` returns for a key it does not
hold. -/
def GetVehicle (self : Vehicles) (id : Int) (dflt : Vehicle) : Vehicle :=
  self.vehicles.value id dflt

/-- Member function `QList<Vehicle> Vehicles::GetAllVehicles()`. -/
def GetAllVehicles (self : Vehicles) : List Vehicle :=
  self.vehicles.values

/-- Member function `int Vehicles::GetLenght()`. -/
def GetLenght (self : Vehicles) : Int :=
  self.vehicles.size

/-- Whether an identifier is present in the registry (a key of the hash). -/
def present (self : Vehicles) (id : Int) : Bool :=
  self.vehicles.contains id

end Vehicles

/-- A mutating call on the registry. -/
inductive RegistryCall where
  | add (vehicle : Vehicle)
  | remove (id : Int)
  deriving DecidableEq, Repr

/-- The registry after one mutating call. -/
def Vehicles.call (self : Vehicles) : RegistryCall → Vehicles
  | .add vehicle => self.AddVehicle vehicle
  | .remove id => (self.RemoveVehicle id).1

/-- The registry reached from the freshly constructed one by a sequence of
`AddVehicle` / `RemoveVehicle` calls. -/
def Vehicles.run (calls : List RegistryCall) : Vehicles :=
  calls.foldl Vehicles.call Vehicles.new

/-- Every vehicle of the registry is stored under its own identifier. -/
def Vehicles.keyedById (s : Vehicles) : Prop :=
  ∀ e ∈ s.vehicles.entries, e.1 = e.2.GetIdNumber

/-! ## `ui/mapstreet.cpp` -/

/-- Modelled from the spec: class `Street` is declared in `model/street.hpp`,
which is not among the sources. The spec's street has an identifier (here its
name), begin and end points, a traffic-flow factor and an optional stop offset
("fraction 0..1 along the segment, or none"); the code reads them with
`getName()`, `getBegin()`, `getEnd()`, `getTrafficFlow()`, `getStopPos()` and
writes the factor with `setTrafficFlow()`. -/
structure Street where
  name : String
  beginPoint : QPoint
  endPoint : QPoint
  stopPos : ℚ
  trafficFlow : ℚ
  deriving DecidableEq

namespace Street

/-- Accessor `getBegin()`. -/
def getBegin (s : Street) : QPoint := s.beginPoint

/-- Accessor `getEnd()`. -/
def getEnd (s : Street) : QPoint := s.endPoint

/-- Accessor `getStopPos()`. -/
def getStopPos (s : Street) : ℚ := s.stopPos

/-- Accessor `getTrafficFlow()`. -/
def getTrafficFlow (s : Street) : ℚ := s.trafficFlow

/-- Modelled from the spec: `Street::setTrafficFlow` is defined outside the
sources; the factor is "mutated externally by traffic-control input", so the
setter stores the value it is given. -/
def setTrafficFlow (s : Street) (flow : ℚ) : Street :=
  { s with trafficFlow := flow }

end Street

/-- A signal emitted by a scene object. Pointers are addresses: of a scene
item in `Map.items`, of a street in the street store; `none` is `nullptr`. -/
inductive Signal where
  | selectionChanged (item : Nat)
  | streetSelected (street : Option Nat)
  | busSelected (id : Int)
  deriving DecidableEq, Repr

/-- Data members of `MapStreet` the code below uses: `street` (a `Street *`,
here the address of the street in the street store) and `selected`. -/
structure MapStreet where
  street : Nat
  selected : Bool
  deriving DecidableEq, Repr

namespace MapStreet

/-- Member function `bool MapStreet::getSelected() const`. -/
def getSelected (self : MapStreet) : Bool := self.selected

/-- Member function `void MapStreet::setSelected(bool value)`: the object after the call and
the signals emitted; `addr` is the address of the object (`this`). -/
def setSelected (self : MapStreet) (addr : Nat) (value : Bool) : MapStreet × List Signal :=
  ({ self with selected := value },
   if self.selected ≠ value then [.selectionChanged addr] else [])

/-- Member function `Street *MapStreet::getStreet()`. -/
def getStreet (self : MapStreet) : Nat := self.street

end MapStreet

/-! ## `ui/map.cpp` -/

/-- Modelled from the spec: class `MapBus` is declared in `ui/mapbus.hpp`,
which is not among the sources. `Map::mousePressEvent` uses its `setSelected`
and `getId`; the spec calls this "selection state" of a scene item, so a bus
item carries the identifier of its vehicle and a selection flag. -/
structure MapBus where
  id : Int
  selected : Bool
  deriving DecidableEq, Repr

/-- Modelled from the spec: `MapBus::setSelected` is defined outside the
sources; it stores the selection flag. -/
def MapBus.setSelected (self : MapBus) (value : Bool) : MapBus :=
  { self with selected := value }

/-- Accessor `MapBus::getId()`. -/
def MapBus.getId (self : MapBus) : Int := self.id

/-- A graphics item of the scene, by its dynamic type. -/
inductive SceneItem where
  | street (s : MapStreet)
  | bus (b : MapBus)
  | other
  deriving DecidableEq, Repr

/-- The selection flag of a street or bus item (`false` for any other item). -/
def SceneItem.selected : SceneItem → Bool
  | .street s => s.selected
  | .bus b => b.selected
  | .other => false

/-- The item with its selection flag cleared, as the loop of
`Map::mousePressEvent` leaves it. -/
def SceneItem.deselected : SceneItem → SceneItem
  | .street s => .street (s.setSelected 0 false).1
  | .bus b => .bus (b.setSelected false)
  | .other => .other

/-- Whether a signal is `Map::streetSelected`. -/
def Signal.isStreetSelected : Signal → Bool
  | .streetSelected _ => true
  | _ => false

/-- Whether a signal is `Map::busSelected`. -/
def Signal.isBusSelected : Signal → Bool
  | .busSelected _ => true
  | _ => false

/-- The scene `Map`: its items (`items()`), and the members `selectedMapStreet`
and `selectedMapBus`, pointers to scene items given as positions in `items`. -/
structure Map where
  items : List SceneItem
  selectedMapStreet : Option Nat
  selectedMapBus : Option Nat
  deriving DecidableEq, Repr

/-- The loop `for(auto i : items())` of `Map::mousePressEvent`, over the items
from address `addr` on: the items after the loop and the signals emitted. -/
def deselectItems : Nat → List SceneItem → List SceneItem × List Signal
  | _, [] => ([], [])
  | addr, .bus b :: rest =>
    (.bus (b.setSelected false) :: (deselectItems (addr + 1) rest).1,
     (deselectItems (addr + 1) rest).2)
  | addr, .street s :: rest =>
    (.street (s.setSelected addr false).1 :: (deselectItems (addr + 1) rest).1,
     (s.setSelected addr false).2 ++ (deselectItems (addr + 1) rest).2)
  | addr, .other :: rest =>
    (.other :: (deselectItems (addr + 1) rest).1, (deselectItems (addr + 1) rest).2)

/-- The cast `dynamic_cast<MapStreet *>(item)`: the address and the object when the item
pointer addresses a `MapStreet` of the scene. -/
def castMapStreet (items : List SceneItem) (item : Option Nat) : Option (Nat × MapStreet) :=
  match item with
  | none => none
  | some addr =>
    match items[addr]? with
    | some (.street s) => some (addr, s)
    | _ => none

/-- The cast `dynamic_cast<MapBus *>(item)`. -/
def castMapBus (items : List SceneItem) (item : Option Nat) : Option (Nat × MapBus) :=
  match item with
  | none => none
  | some addr =>
    match items[addr]? with
    | some (.bus b) => some (addr, b)
    | _ => none

namespace Map

/-- Member function `void Map::changeStreetTraffic(int flow)`: the street store after the call.
`invalidate()` only schedules a redraw. -/
def changeStreetTraffic (self : Map) (streets : List Street) (flow : Int) : List Street :=
  match castMapStreet self.items self.selectedMapStreet with
  | none => streets
  | some (_, s) =>
    match streets[s.getStreet]? with
    | some st => streets.set s.getStreet (st.setTrafficFlow ((flow : ℚ) / 100))
    | none => streets

/-- Member function `void Map::updateBus(QPoint pos)`: empty body. -/
def updateBus (self : Map) (_pos : QPoint) : Map := self

/-- Member function `void Map::addBus(int id, QString line)`: empty body. -/
def addBus (self : Map) (_id : Int) (_line : String) : Map := self

/-- Member function `void Map::removeBus(int id)`: empty body. -/
def removeBus (self : Map) (_id : Int) : Map := self

/-- Modelled from the spec: the two-argument `updateBus(int, QPoint)` that
`MainWindow::simulationStep` calls is not defined in `map.cpp`. The rendering
layer is an external consumer of the "per-tick mapping vehicle-id → 2D
position"; like its one-argument sibling, the call leaves the scene as it is. -/
def updateBusAt (self : Map) (_id : Int) (_pos : QPoint) : Map := self

/-- The selection steps of `void Map::mousePressEvent(...)`, up to the second
`emit`: `item` is the result of `itemAt(mouseEvent->scenePos(), QTransform())`.
Returns the scene after these steps and the signals emitted, in order. -/
def mousePressEvent (self : Map) (item : Option Nat) : Map × List Signal :=
  let cleared := deselectItems 0 self.items
  let selectedMapBus := castMapBus cleared.1 item
  let selectedMapStreet := castMapStreet cleared.1 item
  let afterStreet : List SceneItem × List Signal :=
    match selectedMapStreet with
    | some (addr, s) =>
      (cleared.1.set addr (.street (s.setSelected addr true).1),
       (s.setSelected addr true).2 ++ [.streetSelected (some s.getStreet)])
    | none => (cleared.1, [.streetSelected none])
  let afterBus : List SceneItem × List Signal :=
    match selectedMapBus with
    | some (addr, b) =>
      (afterStreet.1.set addr (.bus (b.setSelected true)), [.busSelected b.getId])
    | none => (afterStreet.1, [])
  ({ items := afterBus.1,
     selectedMapStreet := selectedMapStreet.map Prod.fst,
     selectedMapBus := selectedMapBus.map Prod.fst },
   cleared.2 ++ afterStreet.2 ++ afterBus.2)

/-- Identifiers of the bus items the scene holds. -/
def shownBuses (self : Map) : List Int :=
  self.items.filterMap (fun i => match i with
    | .bus b => some b.getId
    | _ => none)

end Map

/-! ## `ui/mainwindow.cpp` -/

/-- The members of class `Simulation` that `MainWindow::simulationStep` uses.
`simulation.hpp` declares them; their bodies (`functions/simulation.cpp`) are
not among the sources, so they are parameters: any simulation state type `σ`
with a tick, a move log and a vehicle lookup. -/
structure SimulationOps (σ : Type) where
  Simulate : σ → Int → σ
  move_log : σ → QHash QPoint
  GetVehicleById : σ → Int → Vehicle

/-- A call issued on the map scene by the main window. -/
inductive SceneCall where
  | addBus (id : Int) (line : String)
  | updateBus (id : Int) (pos : QPoint)
  | removeBus (id : Int)
  deriving DecidableEq, Repr

/-- Data members of `MainWindow` the step uses: `mapScene` (`none` is
`nullptr`), `simulation` and `prevMoveLog`. -/
structure MainWindow (σ : Type) where
  mapScene : Option Map
  simulation : σ
  prevMoveLog : QHash QPoint

/-- Body of the first loop of `simulationStep`, for one `busId` of
`currMoveLog.keys()`: the scene and the calls issued so far, extended.
`currMoveLog[busId]` is read for a key the log holds; `QPoint()` is `(0, 0)`. -/
def stepCurrBus {σ : Type} (ops : SimulationOps σ) (simulation : σ)
    (prevMoveLog currMoveLog : QHash QPoint)
    (acc : Map × List SceneCall) (busId : Int) : Map × List SceneCall :=
  let added : Map × List SceneCall :=
    if !prevMoveLog.contains busId then
      (acc.1.addBus busId (ops.GetVehicleById simulation busId).GetLine,
       acc.2 ++ [.addBus busId (ops.GetVehicleById simulation busId).GetLine])
    else acc
  (added.1.updateBusAt busId (currMoveLog.value busId ⟨0, 0⟩),
   added.2 ++ [.updateBus busId (currMoveLog.value busId ⟨0, 0⟩)])

/-- Body of the second loop of `simulationStep`, for one `prevBusId` of
`prevMoveLog.keys()`. -/
def stepPrevBus (currMoveLog : QHash QPoint)
    (acc : Map × List SceneCall) (prevBusId : Int) : Map × List SceneCall :=
  if !currMoveLog.contains prevBusId then
    (acc.1.removeBus prevBusId, acc.2 ++ [.removeBus prevBusId])
  else acc

/-- Member function `void MainWindow::simulationStep(int seconds)`: the window after the step
and the calls issued on the scene, in order. -/
def MainWindow.simulationStep {σ : Type} (ops : SimulationOps σ) (self : MainWindow σ)
    (seconds : Int) : MainWindow σ × List SceneCall :=
  match self.mapScene with
  | none => (self, [])
  | some mapScene =>
    let simulation := ops.Simulate self.simulation seconds
    let currMoveLog := ops.move_log simulation
    let afterCurr := currMoveLog.keys.foldl
      (stepCurrBus ops simulation self.prevMoveLog currMoveLog) (mapScene, [])
    let afterPrev := self.prevMoveLog.keys.foldl (stepPrevBus currMoveLog) afterCurr
    ({ mapScene := some afterPrev.1, simulation := simulation, prevMoveLog := currMoveLog },
     afterPrev.2)

/-- The set of bus identifiers obtained from `shown` by carrying out the
`addBus` / `removeBus` requests of a call sequence. -/
def replayCalls : List SceneCall → List Int → List Int
  | [], shown => shown
  | .addBus id _ :: rest, shown => replayCalls rest (shown ++ [id])
  | .updateBus _ _ :: rest, shown => replayCalls rest shown
  | .removeBus id :: rest, shown => replayCalls rest (shown.filter (fun j => !decide (j = id)))

/-- The calls one pass of the first loop of `simulationStep` issues for
`busId`, in order. -/
def currBusCalls {σ : Type} (ops : SimulationOps σ) (simulation : σ)
    (prevMoveLog currMoveLog : QHash QPoint) (busId : Int) : List SceneCall :=
  (if !prevMoveLog.contains busId then
      [.addBus busId (ops.GetVehicleById simulation busId).GetLine]
    else [])
  ++ [.updateBus busId (currMoveLog.value busId ⟨0, 0⟩)]

/-- A simulation whose state is its move log: every tick produces the log
that holds vehicle 1 at point (3, 4), and every vehicle runs on line "L". -/
def oneBusOps : SimulationOps (QHash QPoint) where
  Simulate := fun _ _ => QHash.empty.insert 1 ⟨3, 4⟩
  move_log := fun log => log
  GetVehicleById := fun _ id => ⟨id, "L", 0⟩

/-! ## Theorems -/

/-! ### Entry lists -/

theorem mem_entryKeys_insertEntry {α : Type} (k : Int) (v : α) (es : List (Int × α)) (a : Int) :
    a ∈ entryKeys (insertEntry k v es) ↔ a = k ∨ a ∈ entryKeys es := by
  induction es with
  | nil => simp [entryKeys, insertEntry]
  | cons e es ih =>
    simp only [entryKeys] at ih
    by_cases h : e.1 = k
    · simp [entryKeys, insertEntry, h]
    · simp only [entryKeys, insertEntry, h, if_false, List.map_cons, List.mem_cons, ih]
      tauto

theorem findEntry_eq_none {α : Type} (k : Int) (es : List (Int × α)) :
    findEntry k es = none ↔ k ∉ entryKeys es := by
  induction es with
  | nil => simp [entryKeys, findEntry]
  | cons e es ih =>
    simp only [entryKeys] at ih
    by_cases h : e.1 = k
    · simp [entryKeys, findEntry, h]
    · have h2 : ¬ k = e.1 := fun c => h c.symm
      simp [entryKeys, findEntry, h, h2, ih]

theorem findEntry_insertEntry_self {α : Type} (k : Int) (v : α) (es : List (Int × α)) :
    findEntry k (insertEntry k v es) = some v := by
  induction es with
  | nil => simp [findEntry, insertEntry]
  | cons e es ih =>
    by_cases h : e.1 = k
    · simp [findEntry, insertEntry, h]
    · simp [findEntry, insertEntry, h, ih]

theorem findEntry_insertEntry_ne {α : Type} (k j : Int) (v : α) (es : List (Int × α))
    (hj : j ≠ k) : findEntry j (insertEntry k v es) = findEntry j es := by
  induction es with
  | nil => simp [findEntry, insertEntry, hj.symm]
  | cons e es ih =>
    obtain ⟨a, b⟩ := e
    by_cases h : a = k
    · subst h
      simp [findEntry, insertEntry, hj.symm]
    · by_cases h3 : a = j
      · subst h3
        simp [findEntry, insertEntry, h]
      · simp [findEntry, insertEntry, h, h3, ih]

theorem length_insertEntry {α : Type} (k : Int) (v : α) (es : List (Int × α)) :
    (insertEntry k v es).length = if k ∈ entryKeys es then es.length else es.length + 1 := by
  induction es with
  | nil => simp [entryKeys, insertEntry]
  | cons e es ih =>
    simp only [entryKeys] at ih
    by_cases h : e.1 = k
    · simp [entryKeys, insertEntry, h]
    · have h2 : ¬ k = e.1 := fun c => h c.symm
      by_cases hk : k ∈ List.map Prod.fst es
      · simp [entryKeys, insertEntry, h, h2, hk, ih]
      · simp [entryKeys, insertEntry, h, h2, hk, ih]

theorem mem_entryKeys_removeEntry {α : Type} (k : Int) (es : List (Int × α)) (a : Int) :
    a ∈ entryKeys (removeEntry k es) ↔ a ≠ k ∧ a ∈ entryKeys es := by
  simp only [entryKeys, removeEntry, List.mem_map, List.mem_filter]
  constructor
  · rintro ⟨e, ⟨he, hk⟩, rfl⟩
    exact ⟨by simpa using hk, e, he, rfl⟩
  · rintro ⟨hk, e, he, rfl⟩
    exact ⟨e, ⟨he, by simpa using hk⟩, rfl⟩

theorem findEntry_removeEntry_ne {α : Type} (k j : Int) (es : List (Int × α))
    (hj : j ≠ k) : findEntry j (removeEntry k es) = findEntry j es := by
  induction es with
  | nil => rfl
  | cons e es ih =>
    simp only [removeEntry] at ih
    obtain ⟨a, b⟩ := e
    by_cases h : a = k
    · subst h
      simp [removeEntry, List.filter_cons, findEntry, hj.symm, ih]
    · by_cases h3 : a = j
      · subst h3
        simp [removeEntry, List.filter_cons, h, findEntry]
      · simp [removeEntry, List.filter_cons, h, findEntry, h3, ih]

theorem removeEntry_of_not_mem {α : Type} (k : Int) (es : List (Int × α))
    (hk : k ∉ entryKeys es) : removeEntry k es = es := by
  simp only [removeEntry, List.filter_eq_self]
  intro e he
  have : e.1 ≠ k := fun c => hk (c ▸ List.mem_map_of_mem Prod.fst he)
  simpa using this

theorem length_removeEntry_of_mem {α : Type} (k : Int) (es : List (Int × α))
    (hn : (entryKeys es).Nodup) (hk : k ∈ entryKeys es) :
    (removeEntry k es).length + 1 = es.length := by
  induction es with
  | nil => simp [entryKeys] at hk
  | cons e es ih =>
    have hc : e.1 ∉ entryKeys es ∧ (entryKeys es).Nodup := by
      simpa [entryKeys] using hn
    by_cases h : e.1 = k
    · have hnot : k ∉ entryKeys es := h ▸ hc.1
      have := removeEntry_of_not_mem k es hnot
      simp only [removeEntry] at this
      simp [removeEntry, List.filter_cons, h, this]
    · have hk2 : k ∈ entryKeys es := by
        have : k = e.1 ∨ k ∈ entryKeys es := by simpa [entryKeys] using hk
        rcases this with c | c
        · exact absurd c.symm h
        · exact c
      have := ih hc.2 hk2
      simp only [removeEntry] at this
      simp [removeEntry, List.filter_cons, h, this]

/-! ### The vehicle registry -/

theorem present_iff (s : Vehicles) (id : Int) :
    s.present id = true ↔ id ∈ entryKeys s.vehicles.entries := by
  simp [Vehicles.present, QHash.contains]

theorem present_eq_false_iff (s : Vehicles) (id : Int) :
    s.present id = false ↔ id ∉ entryKeys s.vehicles.entries := by
  simp [Vehicles.present, QHash.contains]

theorem GetVehicle_AddVehicle_self (s : Vehicles) (v dflt : Vehicle) :
    (s.AddVehicle v).GetVehicle v.GetIdNumber dflt = v := by
  simp [Vehicles.GetVehicle, Vehicles.AddVehicle, QHash.value, QHash.insert,
    findEntry_insertEntry_self]

theorem GetVehicle_AddVehicle_ne (s : Vehicles) (v dflt : Vehicle) (id : Int)
    (h : id ≠ v.GetIdNumber) :
    (s.AddVehicle v).GetVehicle id dflt = s.GetVehicle id dflt := by
  simp [Vehicles.GetVehicle, Vehicles.AddVehicle, QHash.value, QHash.insert,
    findEntry_insertEntry_ne _ _ _ _ h]

theorem present_AddVehicle (s : Vehicles) (v : Vehicle) (id : Int) :
    (s.AddVehicle v).present id = true ↔ id = v.GetIdNumber ∨ s.present id = true := by
  rw [present_iff, present_iff]
  exact mem_entryKeys_insertEntry _ _ _ _

theorem GetLenght_AddVehicle (s : Vehicles) (v : Vehicle) :
    (s.AddVehicle v).GetLenght =
      if s.present v.GetIdNumber = true then s.GetLenght else s.GetLenght + 1 := by
  simp only [Vehicles.GetLenght, Vehicles.AddVehicle, QHash.size, QHash.insert,
    length_insertEntry, present_iff]
  split <;> simp

/-- C1 (as amended): when the identifier of `v` is already present,
`AddVehicle(v)` reports nothing and replaces the stored vehicle: afterwards
`GetVehicle` of that identifier returns `v`, the number of vehicles is the
same, and every other identifier is present and looked up as before. -/
theorem AddVehicle_present_replaces (s : Vehicles) (v dflt : Vehicle)
    (h : s.present v.GetIdNumber = true) :
    (s.AddVehicle v).GetVehicle v.GetIdNumber dflt = v ∧
    (s.AddVehicle v).GetLenght = s.GetLenght ∧
    (∀ id, (s.AddVehicle v).present id = s.present id) ∧
    (∀ id, id ≠ v.GetIdNumber →
      (s.AddVehicle v).GetVehicle id dflt = s.GetVehicle id dflt) := by
  refine ⟨GetVehicle_AddVehicle_self s v dflt, ?_, ?_, ?_⟩
  · rw [GetLenght_AddVehicle, if_pos h]
  · intro id
    rw [Bool.eq_iff_iff, present_AddVehicle]
    constructor
    · rintro (c | c)
      · exact c ▸ h
      · exact c
    · exact Or.inr
  · intro id hid
    exact GetVehicle_AddVehicle_ne s v dflt id hid

/-- C1, witness: a registry holding vehicle 1 of line "A" receives vehicle 1 of
line "B". -/
theorem AddVehicle_present_replaces_witness :
    ((Vehicles.new.AddVehicle ⟨1, "A", 0⟩).AddVehicle ⟨1, "B", 5⟩).GetVehicle 1 ⟨0, "", 0⟩
      = ⟨1, "B", 5⟩ ∧
    ((Vehicles.new.AddVehicle ⟨1, "A", 0⟩).AddVehicle ⟨1, "B", 5⟩).GetLenght
      = (Vehicles.new.AddVehicle ⟨1, "A", 0⟩).GetLenght :=
  ⟨(AddVehicle_present_replaces (Vehicles.new.AddVehicle ⟨1, "A", 0⟩) ⟨1, "B", 5⟩ ⟨0, "", 0⟩
      (by decide)).1,
   (AddVehicle_present_replaces (Vehicles.new.AddVehicle ⟨1, "A", 0⟩) ⟨1, "B", 5⟩ ⟨0, "", 0⟩
      (by decide)).2.1⟩

/-- C1, counterexample: identifier 1 is present, holding the vehicle of line
"A"; after `AddVehicle` of a vehicle 1 of line "B" the registry has changed:
`GetVehicle(1)` returns the new vehicle, not the one stored before. -/
theorem AddVehicle_duplicate_counterexample :
    (Vehicles.new.AddVehicle ⟨1, "A", 0⟩).present 1 = true ∧
    (Vehicles.new.AddVehicle ⟨1, "A", 0⟩).GetVehicle 1 ⟨0, "", 0⟩ = ⟨1, "A", 0⟩ ∧
    ((Vehicles.new.AddVehicle ⟨1, "A", 0⟩).AddVehicle ⟨1, "B", 5⟩).GetVehicle 1 ⟨0, "", 0⟩
      = ⟨1, "B", 5⟩ ∧
    ((Vehicles.new.AddVehicle ⟨1, "A", 0⟩).AddVehicle ⟨1, "B", 5⟩).GetVehicle 1 ⟨0, "", 0⟩
      ≠ (Vehicles.new.AddVehicle ⟨1, "A", 0⟩).GetVehicle 1 ⟨0, "", 0⟩ ∧
    ((Vehicles.new.AddVehicle ⟨1, "A", 0⟩).AddVehicle ⟨1, "B", 5⟩).GetAllVehicles
      = [⟨1, "B", 5⟩] := by
  decide

/-- C2 (as amended): for an identifier that is not present, `GetVehicle`
reports nothing and returns a default-constructed `Vehicle`. -/
theorem GetVehicle_absent (s : Vehicles) (id : Int) (dflt : Vehicle)
    (h : s.present id = false) : s.GetVehicle id dflt = dflt := by
  have hn : findEntry id s.vehicles.entries = none :=
    (findEntry_eq_none _ _).2 ((present_eq_false_iff s id).1 h)
  simp [Vehicles.GetVehicle, QHash.value, hn]

/-- C2, witness: identifier 2 in a registry that holds only vehicle 1. -/
theorem GetVehicle_absent_witness :
    (Vehicles.new.AddVehicle ⟨1, "A", 0⟩).GetVehicle 2 ⟨0, "", 0⟩ = ⟨0, "", 0⟩ :=
  GetVehicle_absent (Vehicles.new.AddVehicle ⟨1, "A", 0⟩) 2 ⟨0, "", 0⟩ (by decide)

/-- C2, counterexample: identifier 2 is not present in a registry that holds
only vehicle 1, and `GetVehicle(2)` returns a vehicle value, the
default-constructed one. -/
theorem GetVehicle_absent_counterexample :
    (Vehicles.new.AddVehicle ⟨1, "A", 0⟩).present 2 = false ∧
    (Vehicles.new.AddVehicle ⟨1, "A", 0⟩).GetVehicle 2 ⟨0, "", 0⟩ = ⟨0, "", 0⟩ := by
  decide

/-- C7: after `AddVehicle(v)`, `GetVehicle` of the identifier of `v` returns
`v`, `GetVehicle` of every other identifier returns what it returned before,
and `GetLenght()` is one more than before when the identifier was absent and
unchanged when it was present. -/
theorem AddVehicle_GetVehicle_GetLenght (s : Vehicles) (v dflt : Vehicle) :
    (s.AddVehicle v).GetVehicle v.GetIdNumber dflt = v ∧
    (∀ id, id ≠ v.GetIdNumber →
      (s.AddVehicle v).GetVehicle id dflt = s.GetVehicle id dflt) ∧
    (s.present v.GetIdNumber = false → (s.AddVehicle v).GetLenght = s.GetLenght + 1) ∧
    (s.present v.GetIdNumber = true → (s.AddVehicle v).GetLenght = s.GetLenght) := by
  refine ⟨GetVehicle_AddVehicle_self s v dflt,
    fun id hid => GetVehicle_AddVehicle_ne s v dflt id hid, ?_, ?_⟩
  · intro h
    rw [GetLenght_AddVehicle, h]
    simp
  · intro h
    rw [GetLenght_AddVehicle, if_pos h]

/-- C3: `RemoveVehicle(id)` returns a non-zero value exactly when `id` was
present, and then the value is 1; when `id` was absent it returns 0 and the
registry is unchanged; in both cases `id` is absent afterwards and every other
identifier is present and looked up as before. -/
theorem RemoveVehicle_result (s : Vehicles) (id : Int) (dflt : Vehicle) :
    ((s.RemoveVehicle id).2 ≠ 0 ↔ s.present id = true) ∧
    (s.present id = true → (s.RemoveVehicle id).2 = 1) ∧
    (s.present id = false → (s.RemoveVehicle id).2 = 0 ∧ (s.RemoveVehicle id).1 = s) ∧
    (s.RemoveVehicle id).1.present id = false ∧
    (∀ j, j ≠ id → (s.RemoveVehicle id).1.present j = s.present j ∧
      (s.RemoveVehicle id).1.GetVehicle j dflt = s.GetVehicle j dflt) := by
  have hpos : s.present id = true → (s.RemoveVehicle id).2 = 1 := by
    intro h
    have := length_removeEntry_of_mem id s.vehicles.entries s.vehicles.nodupKeys
      ((present_iff s id).1 h)
    simp only [Vehicles.RemoveVehicle, QHash.remove]
    omega
  have hneg : s.present id = false →
      (s.RemoveVehicle id).2 = 0 ∧ (s.RemoveVehicle id).1 = s := by
    intro h
    have := removeEntry_of_not_mem id s.vehicles.entries ((present_eq_false_iff s id).1 h)
    obtain ⟨⟨es, hes⟩⟩ := s
    simp only [Vehicles.RemoveVehicle, QHash.remove] at this ⊢
    simp [this]
  refine ⟨?_, hpos, hneg, ?_, ?_⟩
  · constructor
    · intro h
      by_contra c
      exact h (hneg (by simpa using c)).1
    · intro h
      rw [hpos h]
      decide
  · rw [present_eq_false_iff]
    simp only [Vehicles.RemoveVehicle, QHash.remove, mem_entryKeys_removeEntry]
    exact fun c => c.1 rfl
  · intro j hj
    constructor
    · rw [Bool.eq_iff_iff, present_iff, present_iff]
      simp only [Vehicles.RemoveVehicle, QHash.remove, mem_entryKeys_removeEntry]
      exact ⟨fun c => c.2, fun c => ⟨hj, c⟩⟩
    · simp [Vehicles.GetVehicle, Vehicles.RemoveVehicle, QHash.value, QHash.remove,
        findEntry_removeEntry_ne _ _ _ hj]

theorem mem_insertEntry {α : Type} (k : Int) (v : α) (es : List (Int × α)) (e : Int × α)
    (h : e ∈ insertEntry k v es) : e = (k, v) ∨ e ∈ es := by
  induction es with
  | nil => simpa [insertEntry] using h
  | cons e0 es ih =>
    by_cases hk : e0.1 = k
    · simp only [insertEntry, hk, if_true, List.mem_cons] at h
      rcases h with c | c
      · exact Or.inl c
      · exact Or.inr (List.mem_cons_of_mem _ c)
    · simp only [insertEntry, hk, if_false, List.mem_cons] at h
      rcases h with c | c
      · exact Or.inr (c ▸ List.mem_cons_self _ _)
      · rcases ih c with d | d
        · exact Or.inl d
        · exact Or.inr (List.mem_cons_of_mem _ d)

theorem keyedById_call (s : Vehicles) (c : RegistryCall) (h : s.keyedById) :
    (s.call c).keyedById := by
  cases c with
  | add vehicle =>
    intro e he
    rcases mem_insertEntry _ _ _ _ he with c | c
    · rw [c]
    · exact h e c
  | remove id =>
    intro e he
    exact h e (List.mem_of_mem_filter he)

theorem keyedById_foldl (calls : List RegistryCall) (s : Vehicles) (h : s.keyedById) :
    (calls.foldl Vehicles.call s).keyedById := by
  induction calls generalizing s with
  | nil => exact h
  | cons c calls ih => exact ih (s.call c) (keyedById_call s c h)

theorem keyedById_run (calls : List RegistryCall) : (Vehicles.run calls).keyedById :=
  keyedById_foldl calls Vehicles.new (fun e he => by simp [Vehicles.new, QHash.empty] at he)

theorem ids_eq_keys (s : Vehicles) (h : s.keyedById) :
    s.GetAllVehicles.map Vehicle.GetIdNumber = entryKeys s.vehicles.entries := by
  simp only [Vehicles.GetAllVehicles, QHash.values, entryKeys, List.map_map]
  apply List.map_congr_left
  intro e he
  exact (h e he).symm

theorem findEntry_some_mem {α : Type} (k : Int) (v : α) (es : List (Int × α))
    (h : findEntry k es = some v) : (k, v) ∈ es := by
  induction es with
  | nil => simp [findEntry] at h
  | cons e es ih =>
    obtain ⟨a, b⟩ := e
    by_cases hk : a = k
    · subst hk
      simp only [findEntry, if_true, Option.some.injEq] at h
      simp [h]
    · simp only [findEntry, hk, if_false] at h
      exact List.mem_cons_of_mem _ (ih h)

theorem findEntry_of_mem {α : Type} (k : Int) (v : α) (es : List (Int × α))
    (hn : (entryKeys es).Nodup) (h : (k, v) ∈ es) : findEntry k es = some v := by
  induction es with
  | nil => simp at h
  | cons e es ih =>
    have hc : e.1 ∉ entryKeys es ∧ (entryKeys es).Nodup := by
      simpa [entryKeys] using hn
    rcases List.mem_cons.1 h with c | c
    · subst c
      simp [findEntry]
    · have hne : e.1 ≠ k := fun d => hc.1 (d ▸ List.mem_map_of_mem Prod.fst c)
      simp [findEntry, hne, ih hc.2 c]

/-- C4: in every registry reached from the empty one by `AddVehicle` and
`RemoveVehicle` calls, each vehicle is stored under its own identifier, and the
identifiers of the vehicles `GetAllVehicles` returns are pairwise different. -/
theorem run_stored_under_own_identifier (calls : List RegistryCall) :
    (∀ e ∈ (Vehicles.run calls).vehicles.entries, e.1 = e.2.GetIdNumber) ∧
    ((Vehicles.run calls).GetAllVehicles.map Vehicle.GetIdNumber).Nodup ∧
    (∀ v ∈ (Vehicles.run calls).GetAllVehicles, ∀ w ∈ (Vehicles.run calls).GetAllVehicles,
      v.GetIdNumber = w.GetIdNumber → v = w) := by
  have hk := keyedById_run calls
  have hnd : ((Vehicles.run calls).GetAllVehicles.map Vehicle.GetIdNumber).Nodup := by
    rw [ids_eq_keys _ hk]
    exact (Vehicles.run calls).vehicles.nodupKeys
  refine ⟨hk, hnd, ?_⟩
  intro v hv w hw hvw
  exact List.inj_on_of_nodup_map hnd hv hw hvw

/-- C5: in every registry reached from the empty one, `GetAllVehicles` returns
the live vehicles, each once: its length is `GetLenght()`, it has no repeated
element, a vehicle occurs in it exactly when its identifier is present and
`GetVehicle` of that identifier returns it, and the sequence is a function of
the registry alone (a second call on the same registry returns the same
sequence in the same order). -/
theorem GetAllVehicles_exact (calls : List RegistryCall) (dflt : Vehicle) :
    ((Vehicles.run calls).GetAllVehicles.length : Int) = (Vehicles.run calls).GetLenght ∧
    (Vehicles.run calls).GetAllVehicles.Nodup ∧
    (∀ v, v ∈ (Vehicles.run calls).GetAllVehicles ↔
      ((Vehicles.run calls).present v.GetIdNumber = true ∧
        (Vehicles.run calls).GetVehicle v.GetIdNumber dflt = v)) ∧
    (∀ s : Vehicles, s = Vehicles.run calls →
      s.GetAllVehicles = (Vehicles.run calls).GetAllVehicles) := by
  have hk := keyedById_run calls
  have hnd : ((Vehicles.run calls).GetAllVehicles.map Vehicle.GetIdNumber).Nodup := by
    rw [ids_eq_keys _ hk]
    exact (Vehicles.run calls).vehicles.nodupKeys
  refine ⟨?_, hnd.of_map _, ?_, fun s hs => by rw [hs]⟩
  · simp [Vehicles.GetAllVehicles, Vehicles.GetLenght, QHash.values, QHash.size]
  · intro v
    constructor
    · intro hv
      obtain ⟨e, he, rfl⟩ := List.mem_map.1 hv
      have hkey := hk e he
      have hfind : findEntry e.1 (Vehicles.run calls).vehicles.entries = some e.2 :=
        findEntry_of_mem e.1 e.2 _ (Vehicles.run calls).vehicles.nodupKeys he
      constructor
      · rw [present_iff, ← hkey]
        exact List.mem_map_of_mem Prod.fst he
      · rw [← hkey]
        simp [Vehicles.GetVehicle, QHash.value, hfind]
    · rintro ⟨hp, hg⟩
      have hmem := (present_iff _ _).1 hp
      cases hf : findEntry v.GetIdNumber (Vehicles.run calls).vehicles.entries with
      | none => exact absurd hmem ((findEntry_eq_none _ _).1 hf)
      | some w =>
        have hw : w = v := by
          simpa [Vehicles.GetVehicle, QHash.value, hf] using hg
        have := findEntry_some_mem _ _ _ hf
        rw [hw] at this
        exact List.mem_map.2 ⟨_, this, rfl⟩

/-! ### Traffic flow of the selected street -/

/-- C6 (as amended): while a street is selected, `changeStreetTraffic(flow)`
sets the traffic-flow factor of the selected street to `flow / 100`; the
factor is greater than 0 and at most 1 exactly when `1 ≤ flow ≤ 100`. -/
theorem changeStreetTraffic_factor (m : Map) (streets : List Street) (flow : Int)
    (addr : Nat) (s : MapStreet) (st : Street)
    (hsel : m.selectedMapStreet = some addr)
    (hitem : m.items[addr]? = some (.street s))
    (hst : streets[s.getStreet]? = some st) :
    (m.changeStreetTraffic streets flow)[s.getStreet]?
      = some (st.setTrafficFlow ((flow : ℚ) / 100)) ∧
    (st.setTrafficFlow ((flow : ℚ) / 100)).getTrafficFlow = (flow : ℚ) / 100 ∧
    ((0 < (st.setTrafficFlow ((flow : ℚ) / 100)).getTrafficFlow ∧
      (st.setTrafficFlow ((flow : ℚ) / 100)).getTrafficFlow ≤ 1) ↔ (1 ≤ flow ∧ flow ≤ 100)) := by
  have hlt : s.getStreet < streets.length := by
    by_contra c
    rw [List.getElem?_eq_none (not_lt.1 c)] at hst
    exact absurd hst (by simp)
  refine ⟨?_, rfl, ?_⟩
  · simp [Map.changeStreetTraffic, castMapStreet, hsel, hitem, hst, hlt]
  · simp only [Street.setTrafficFlow, Street.getTrafficFlow]
    constructor
    · rintro ⟨h1, h2⟩
      have h3 : (0 : ℚ) < (flow : ℚ) := by
        by_contra c
        have : (flow : ℚ) / 100 ≤ 0 := div_nonpos_of_nonpos_of_nonneg (not_lt.1 c) (by norm_num)
        exact absurd h1 (not_lt.2 this)
      have h4 : (flow : ℚ) ≤ 100 := by
        have := (div_le_iff₀ (by norm_num : (0 : ℚ) < 100)).1 h2
        simpa using this
      exact ⟨by exact_mod_cast h3, by exact_mod_cast h4⟩
    · rintro ⟨h1, h2⟩
      have h3 : (1 : ℚ) ≤ (flow : ℚ) := by exact_mod_cast h1
      have h4 : (flow : ℚ) ≤ 100 := by exact_mod_cast h2
      constructor
      · exact div_pos (by linarith) (by norm_num)
      · rw [div_le_iff₀ (by norm_num : (0 : ℚ) < 100)]
        linarith

/-- C6, witness: the slider value 50 on a scene whose only item, a street, is
selected. -/
theorem changeStreetTraffic_factor_witness :
    (Map.changeStreetTraffic ⟨[.street ⟨0, true⟩], some 0, none⟩
        [⟨"A", ⟨0, 0⟩, ⟨10, 0⟩, -1, 1⟩] 50)[0]?
      = some (Street.setTrafficFlow ⟨"A", ⟨0, 0⟩, ⟨10, 0⟩, -1, 1⟩ ((50 : Int) / 100)) :=
  (changeStreetTraffic_factor ⟨[.street ⟨0, true⟩], some 0, none⟩
    [⟨"A", ⟨0, 0⟩, ⟨10, 0⟩, -1, 1⟩] 50 0 ⟨0, true⟩ ⟨"A", ⟨0, 0⟩, ⟨10, 0⟩, -1, 1⟩
    rfl rfl rfl).1

/-- C6, counterexample: with a street selected, `changeStreetTraffic(0)` leaves
the selected street with traffic-flow factor 0, which is not greater than 0. -/
theorem changeStreetTraffic_zero_counterexample :
    (Map.mk [.street ⟨0, true⟩] (some 0) none).selectedMapStreet = some 0 ∧
    ((Map.changeStreetTraffic ⟨[.street ⟨0, true⟩], some 0, none⟩
        [⟨"A", ⟨0, 0⟩, ⟨10, 0⟩, -1, 1⟩] 0).map Street.getTrafficFlow) = [0] ∧
    (∀ st ∈ Map.changeStreetTraffic ⟨[.street ⟨0, true⟩], some 0, none⟩
        [⟨"A", ⟨0, 0⟩, ⟨10, 0⟩, -1, 1⟩] 0, ¬ (0 < st.getTrafficFlow)) := by
  refine ⟨rfl, ?_, ?_⟩ <;>
  simp [Map.changeStreetTraffic, castMapStreet, MapStreet.getStreet, Street.setTrafficFlow,
    Street.getTrafficFlow]

/-! ### Selection by a mouse press -/

theorem deselectItems_fst (addr : Nat) (l : List SceneItem) :
    (deselectItems addr l).1 = l.map SceneItem.deselected := by
  induction l generalizing addr with
  | nil => rfl
  | cons it rest ih =>
    cases it <;>
      simp [deselectItems, SceneItem.deselected, MapStreet.setSelected, ih]

theorem deselectItems_snd (addr : Nat) (l : List SceneItem) :
    ∀ sig ∈ (deselectItems addr l).2, ∃ i, sig = Signal.selectionChanged i := by
  induction l generalizing addr with
  | nil => simp [deselectItems]
  | cons it rest ih =>
    intro sig hsig
    cases it with
    | street s =>
      simp only [deselectItems, MapStreet.setSelected, List.mem_append] at hsig
      rcases hsig with h | h
      · split at h
        · exact ⟨addr, by simpa using h⟩
        · simp at h
      · exact ih _ sig h
    | bus b => exact ih _ sig (by simpa [deselectItems] using hsig)
    | other => exact ih _ sig (by simpa [deselectItems] using hsig)

theorem deselected_selected (it : SceneItem) : it.deselected.selected = false := by
  cases it <;> rfl

theorem getElem?_deselected (l : List SceneItem) (addr : Nat) (it : SceneItem)
    (h : (l.map SceneItem.deselected)[addr]? = some it) : it.selected = false := by
  rw [List.getElem?_map] at h
  cases hl : l[addr]? with
  | none => simp [hl] at h
  | some it0 =>
    simp only [hl, Option.map_some', Option.some.injEq] at h
    rw [← h]
    exact deselected_selected it0

theorem castMapStreet_deselected (l : List SceneItem) (item : Option Nat) :
    castMapStreet (l.map SceneItem.deselected) item =
      (castMapStreet l item).map (fun p => (p.1, (p.2.setSelected 0 false).1)) := by
  cases item with
  | none => rfl
  | some addr =>
    simp only [castMapStreet, List.getElem?_map]
    cases hl : l[addr]? with
    | none => rfl
    | some it => cases it <;> rfl

theorem castMapBus_deselected (l : List SceneItem) (item : Option Nat) :
    castMapBus (l.map SceneItem.deselected) item =
      (castMapBus l item).map (fun p => (p.1, p.2.setSelected false)) := by
  cases item with
  | none => rfl
  | some addr =>
    simp only [castMapBus, List.getElem?_map]
    cases hl : l[addr]? with
    | none => rfl
    | some it => cases it <;> rfl

theorem castMapStreet_fst (l : List SceneItem) (item : Option Nat) (addr : Nat) (s : MapStreet)
    (h : castMapStreet l item = some (addr, s)) : item = some addr := by
  cases item with
  | none => simp [castMapStreet] at h
  | some a =>
    simp only [castMapStreet] at h
    split at h
    · simp only [Option.some.injEq, Prod.mk.injEq] at h
      rw [h.1]
    · simp at h

theorem castMapBus_fst (l : List SceneItem) (item : Option Nat) (addr : Nat) (b : MapBus)
    (h : castMapBus l item = some (addr, b)) : item = some addr := by
  cases item with
  | none => simp [castMapBus] at h
  | some a =>
    simp only [castMapBus] at h
    split at h
    · simp only [Option.some.injEq, Prod.mk.injEq] at h
      rw [h.1]
    · simp at h

theorem selected_set_deselected (l : List SceneItem) (a addr : Nat) (x it : SceneItem)
    (h : ((l.map SceneItem.deselected).set a x)[addr]? = some it)
    (hs : it.selected = true) : a = addr := by
  by_contra hne
  rw [List.getElem?_set_ne hne] at h
  rw [getElem?_deselected l addr it h] at hs
  exact absurd hs (by decide)

theorem mousePressEvent_selected_is_clicked (m : Map) (item : Option Nat) (addr : Nat)
    (it : SceneItem) (h : (m.mousePressEvent item).1.items[addr]? = some it)
    (hs : it.selected = true) : item = some addr := by
  simp only [Map.mousePressEvent, deselectItems_fst, castMapStreet_deselected,
    castMapBus_deselected] at h
  cases hst : castMapStreet m.items item with
  | some p =>
    obtain ⟨a, s⟩ := p
    have hi := castMapStreet_fst _ _ _ _ hst
    cases hb : castMapBus m.items item with
    | some q =>
      obtain ⟨a2, b⟩ := q
      have hi2 := castMapBus_fst _ _ _ _ hb
      simp only [hst, hb, Option.map_some'] at h
      by_cases hne : a2 = addr
      · rw [hi2, hne]
      · rw [List.getElem?_set_ne hne] at h
        rw [hi, selected_set_deselected _ _ _ _ _ h hs]
    | none =>
      simp only [hst, hb, Option.map_some', Option.map_none'] at h
      rw [hi, selected_set_deselected _ _ _ _ _ h hs]
  | none =>
    cases hb : castMapBus m.items item with
    | some q =>
      obtain ⟨a2, b⟩ := q
      have hi2 := castMapBus_fst _ _ _ _ hb
      simp only [hst, hb, Option.map_some', Option.map_none'] at h
      rw [hi2, selected_set_deselected _ _ _ _ _ h hs]
    | none =>
      simp only [hst, hb, Option.map_none'] at h
      rw [getElem?_deselected _ _ _ h] at hs
      exact absurd hs (by decide)

theorem filter_isStreetSelected_deselect (addr : Nat) (l : List SceneItem) :
    (deselectItems addr l).2.filter Signal.isStreetSelected = [] := by
  rw [List.filter_eq_nil_iff]
  intro sig hsig
  obtain ⟨i, rfl⟩ := deselectItems_snd addr l sig hsig
  simp [Signal.isStreetSelected]

theorem filter_isBusSelected_deselect (addr : Nat) (l : List SceneItem) :
    (deselectItems addr l).2.filter Signal.isBusSelected = [] := by
  rw [List.filter_eq_nil_iff]
  intro sig hsig
  obtain ⟨i, rfl⟩ := deselectItems_snd addr l sig hsig
  simp [Signal.isBusSelected]

/-- C9: after the selection steps of `Map::mousePressEvent`, an item marked
selected is the item under the click, so every street or bus item other than
the clicked one has `selected = false` and at most one item is marked selected;
`streetSelected` is emitted exactly once, with the street of the clicked item
when that item is a `MapStreet` and with null otherwise; `busSelected` is
emitted (once, with the bus identifier) only when the clicked item is a
`MapBus`. -/
theorem mousePressEvent_selection (m : Map) (item : Option Nat) :
    (∀ (addr : Nat) (it : SceneItem), (m.mousePressEvent item).1.items[addr]? = some it →
      item ≠ some addr → it.selected = false) ∧
    (∀ (i j : Nat) (a b : SceneItem), (m.mousePressEvent item).1.items[i]? = some a →
      (m.mousePressEvent item).1.items[j]? = some b →
      a.selected = true → b.selected = true → i = j) ∧
    (m.mousePressEvent item).2.filter Signal.isStreetSelected =
      [.streetSelected ((castMapStreet m.items item).map (fun p => p.2.getStreet))] ∧
    (m.mousePressEvent item).2.filter Signal.isBusSelected =
      ((castMapBus m.items item).map (fun p => Signal.busSelected p.2.getId)).toList := by
  refine ⟨?_, ?_, ?_, ?_⟩
  · intro addr it h hne
    cases hs : it.selected with
    | false => rfl
    | true => exact absurd (mousePressEvent_selected_is_clicked m item addr it h hs) hne
  · intro i j a b ha hb hsa hsb
    have h1 := mousePressEvent_selected_is_clicked m item i a ha hsa
    have h2 := mousePressEvent_selected_is_clicked m item j b hb hsb
    rw [h1] at h2
    exact Option.some.inj h2
  · simp only [Map.mousePressEvent, List.filter_append, filter_isStreetSelected_deselect,
      deselectItems_fst, castMapStreet_deselected, castMapBus_deselected]
    cases hst : castMapStreet m.items item with
    | some p =>
      cases hb : castMapBus m.items item with
      | some q =>
        simp [MapStreet.setSelected, MapStreet.getStreet, Signal.isStreetSelected,
          List.filter_cons]
      | none =>
        simp [MapStreet.setSelected, MapStreet.getStreet, Signal.isStreetSelected,
          List.filter_cons]
    | none =>
      cases hb : castMapBus m.items item with
      | some q => simp [Signal.isStreetSelected, List.filter_cons]
      | none => simp [Signal.isStreetSelected, List.filter_cons]
  · simp only [Map.mousePressEvent, List.filter_append, filter_isBusSelected_deselect,
      deselectItems_fst, castMapStreet_deselected, castMapBus_deselected]
    cases hst : castMapStreet m.items item with
    | some p =>
      cases hb : castMapBus m.items item with
      | some q =>
        simp [MapStreet.setSelected, MapBus.setSelected, MapBus.getId, Signal.isBusSelected,
          List.filter_cons]
      | none =>
        simp [MapStreet.setSelected, Signal.isBusSelected, List.filter_cons]
    | none =>
      cases hb : castMapBus m.items item with
      | some q =>
        simp [MapBus.setSelected, MapBus.getId, Signal.isBusSelected, List.filter_cons]
      | none => simp [Signal.isBusSelected, List.filter_cons]

/-! ### The simulation step of the main window -/

theorem stepCurrBus_snd {σ : Type} (ops : SimulationOps σ) (sim : σ) (prev curr : QHash QPoint)
    (acc : Map × List SceneCall) (busId : Int) :
    (stepCurrBus ops sim prev curr acc busId).2 =
      acc.2 ++ currBusCalls ops sim prev curr busId := by
  simp only [stepCurrBus, currBusCalls]
  split <;> simp

theorem foldl_stepCurrBus_snd {σ : Type} (ops : SimulationOps σ) (sim : σ)
    (prev curr : QHash QPoint) (keys : List Int) (acc : Map × List SceneCall) :
    (keys.foldl (stepCurrBus ops sim prev curr) acc).2 =
      acc.2 ++ keys.flatMap (currBusCalls ops sim prev curr) := by
  induction keys generalizing acc with
  | nil => simp
  | cons k keys ih =>
    rw [List.foldl_cons, ih, stepCurrBus_snd, List.flatMap_cons, List.append_assoc]

theorem foldl_stepPrevBus_snd (curr : QHash QPoint) (keys : List Int)
    (acc : Map × List SceneCall) :
    (keys.foldl (stepPrevBus curr) acc).2 =
      acc.2 ++ (keys.filter (fun k => !curr.contains k)).map SceneCall.removeBus := by
  induction keys generalizing acc with
  | nil => simp
  | cons k keys ih =>
    rw [List.foldl_cons, ih]
    by_cases h : curr.contains k = true
    · simp [stepPrevBus, h, List.filter_cons]
    · simp [stepPrevBus, h, List.filter_cons]

theorem simulationStep_calls {σ : Type} (ops : SimulationOps σ) (scene : Map) (sim : σ)
    (prev : QHash QPoint) (seconds : Int) :
    (MainWindow.simulationStep ops ⟨some scene, sim, prev⟩ seconds).2 =
      (ops.move_log (ops.Simulate sim seconds)).keys.flatMap
          (currBusCalls ops (ops.Simulate sim seconds) prev
            (ops.move_log (ops.Simulate sim seconds)))
        ++ (prev.keys.filter
            (fun k => !(ops.move_log (ops.Simulate sim seconds)).contains k)).map
              SceneCall.removeBus := by
  simp only [MainWindow.simulationStep, foldl_stepPrevBus_snd, foldl_stepCurrBus_snd,
    List.nil_append]

theorem mem_currBusCalls {σ : Type} (ops : SimulationOps σ) (sim : σ)
    (prev curr : QHash QPoint) (k : Int) (c : SceneCall) :
    c ∈ currBusCalls ops sim prev curr k ↔
      (prev.contains k = false ∧ c = .addBus k (ops.GetVehicleById sim k).GetLine) ∨
      c = .updateBus k (curr.value k ⟨0, 0⟩) := by
  simp only [currBusCalls]
  by_cases h : prev.contains k = true
  · simp [h]
  · simp [h]

theorem nodup_currBusCalls {σ : Type} (ops : SimulationOps σ) (sim : σ)
    (prev curr : QHash QPoint) (k : Int) : (currBusCalls ops sim prev curr k).Nodup := by
  simp only [currBusCalls]
  by_cases h : prev.contains k = true
  · simp [h]
  · simp [h]

theorem nodup_flatMap_currBusCalls {σ : Type} (ops : SimulationOps σ) (sim : σ)
    (prev curr : QHash QPoint) (keys : List Int) (hn : keys.Nodup) :
    (keys.flatMap (currBusCalls ops sim prev curr)).Nodup := by
  rw [List.nodup_flatMap]
  refine ⟨fun k _ => nodup_currBusCalls ops sim prev curr k, ?_⟩
  refine hn.pairwise_of_forall_ne ?_
  intro a _ b _ hab
  simp only [Function.onFun]
  rw [List.disjoint_left]
  intro c hca hcb
  rw [mem_currBusCalls] at hca hcb
  rcases hca with ⟨_, rfl⟩ | rfl <;> rcases hcb with ⟨_, h⟩ | h <;>
    simp only [SceneCall.addBus.injEq, SceneCall.updateBus.injEq, reduceCtorEq] at h
  · exact hab h.1
  · exact hab h.1

theorem nodup_simulationStep_calls {σ : Type} (ops : SimulationOps σ) (scene : Map) (sim : σ)
    (prev : QHash QPoint) (seconds : Int) :
    (MainWindow.simulationStep ops ⟨some scene, sim, prev⟩ seconds).2.Nodup := by
  rw [simulationStep_calls, List.nodup_append]
  refine ⟨nodup_flatMap_currBusCalls _ _ _ _ _ (ops.move_log _).nodupKeys, ?_, ?_⟩
  · refine List.Nodup.map ?_ (prev.nodupKeys.filter _)
    intro a b hab
    simpa using hab
  · rw [List.disjoint_left]
    intro c hc hc2
    obtain ⟨k, _, hk⟩ := List.mem_flatMap.1 hc
    obtain ⟨j, _, rfl⟩ := List.mem_map.1 hc2
    rw [mem_currBusCalls] at hk
    rcases hk with ⟨_, h⟩ | h <;> simp at h

theorem contains_eq_false_iff {α : Type} (h : QHash α) (k : Int) :
    h.contains k = false ↔ k ∉ h.keys := by
  simp [QHash.contains, QHash.keys]

theorem replayCalls_append (t u : List SceneCall) (shown : List Int) :
    replayCalls (t ++ u) shown = replayCalls u (replayCalls t shown) := by
  induction t generalizing shown with
  | nil => rfl
  | cons c t ih => cases c <;> simp [replayCalls, ih]

theorem mem_replayCalls_curr {σ : Type} (ops : SimulationOps σ) (sim : σ)
    (prev curr : QHash QPoint) (keys shown : List Int) (j : Int) :
    j ∈ replayCalls (keys.flatMap (currBusCalls ops sim prev curr)) shown ↔
      j ∈ shown ∨ (j ∈ keys ∧ j ∉ prev.keys) := by
  induction keys generalizing shown with
  | nil => simp [replayCalls]
  | cons k keys ih =>
    rw [List.flatMap_cons, replayCalls_append, ih]
    by_cases h : prev.contains k = true
    · have hk : k ∈ prev.keys := by simpa [QHash.contains, QHash.keys] using h
      simp only [currBusCalls, h, Bool.not_true, Bool.false_eq_true, if_false, List.nil_append,
        replayCalls, List.mem_cons]
      constructor
      · rintro (c | ⟨c1, c2⟩)
        · exact Or.inl c
        · exact Or.inr ⟨Or.inr c1, c2⟩
      · rintro (c | ⟨c1 | c1, c2⟩)
        · exact Or.inl c
        · exact absurd (c1 ▸ hk) c2
        · exact Or.inr ⟨c1, c2⟩
    · have hk : k ∉ prev.keys := by simpa [QHash.contains, QHash.keys] using h
      simp only [currBusCalls, h, Bool.not_false, if_true, List.singleton_append,
        replayCalls, List.mem_cons, List.mem_append, List.not_mem_nil, or_false]
      constructor
      · rintro ((c | c) | ⟨c1, c2⟩)
        · exact Or.inl c
        · exact Or.inr ⟨Or.inl c, c ▸ hk⟩
        · exact Or.inr ⟨Or.inr c1, c2⟩
      · rintro (c | ⟨c1 | c1, c2⟩)
        · exact Or.inl (Or.inl c)
        · exact Or.inl (Or.inr c1)
        · exact Or.inr ⟨c1, c2⟩

theorem mem_replayCalls_remove (gone shown : List Int) (j : Int) :
    j ∈ replayCalls (gone.map SceneCall.removeBus) shown ↔ j ∈ shown ∧ j ∉ gone := by
  induction gone generalizing shown with
  | nil => simp [replayCalls]
  | cons k gone ih =>
    simp only [List.map_cons, replayCalls, ih, List.mem_filter, List.mem_cons, not_or,
      Bool.not_eq_true', decide_eq_false_iff_not]
    tauto

/-- C8 (as amended): with a map scene present, `simulationStep` issues every
call at most once; it issues `addBus(id, line)` exactly for the identifiers in
the new move log `C` and not in the previous log `P`, with the line of the
vehicle looked up by that identifier, immediately before that identifier's
`updateBus`; it issues `updateBus(id, C[id])` exactly for the identifiers in
`C`; it issues `removeBus` exactly for the identifiers in `P` and not in `C`;
it ends with the previous log equal to `C`; and carrying out the issued
`addBus` / `removeBus` requests on the identifiers of `P` gives exactly the
identifiers of `C`. Without a map scene the step changes nothing and issues no
call. -/
theorem simulationStep_scene_calls {σ : Type} (ops : SimulationOps σ) (scene : Map) (sim : σ)
    (prev : QHash QPoint) (seconds : Int) :
    (MainWindow.simulationStep ops ⟨some scene, sim, prev⟩ seconds).2.Nodup ∧
    (∀ id line, SceneCall.addBus id line ∈
        (MainWindow.simulationStep ops ⟨some scene, sim, prev⟩ seconds).2 ↔
      id ∈ (ops.move_log (ops.Simulate sim seconds)).keys ∧ id ∉ prev.keys ∧
        line = (ops.GetVehicleById (ops.Simulate sim seconds) id).GetLine) ∧
    (∀ id pos, SceneCall.updateBus id pos ∈
        (MainWindow.simulationStep ops ⟨some scene, sim, prev⟩ seconds).2 ↔
      id ∈ (ops.move_log (ops.Simulate sim seconds)).keys ∧
        pos = (ops.move_log (ops.Simulate sim seconds)).value id ⟨0, 0⟩) ∧
    (∀ id, SceneCall.removeBus id ∈
        (MainWindow.simulationStep ops ⟨some scene, sim, prev⟩ seconds).2 ↔
      id ∈ prev.keys ∧ id ∉ (ops.move_log (ops.Simulate sim seconds)).keys) ∧
    (∀ id, id ∈ (ops.move_log (ops.Simulate sim seconds)).keys → id ∉ prev.keys →
      ∃ before after, (MainWindow.simulationStep ops ⟨some scene, sim, prev⟩ seconds).2 =
        before ++ SceneCall.addBus id (ops.GetVehicleById (ops.Simulate sim seconds) id).GetLine
          :: SceneCall.updateBus id ((ops.move_log (ops.Simulate sim seconds)).value id ⟨0, 0⟩)
          :: after) ∧
    (MainWindow.simulationStep ops ⟨some scene, sim, prev⟩ seconds).1.prevMoveLog =
      ops.move_log (ops.Simulate sim seconds) ∧
    (MainWindow.simulationStep ops ⟨some scene, sim, prev⟩ seconds).1.simulation =
      ops.Simulate sim seconds ∧
    (∀ id, id ∈ replayCalls
        (MainWindow.simulationStep ops ⟨some scene, sim, prev⟩ seconds).2 prev.keys ↔
      id ∈ (ops.move_log (ops.Simulate sim seconds)).keys) ∧
    (∀ w : MainWindow σ, w.mapScene = none →
      MainWindow.simulationStep ops w seconds = (w, [])) := by
  refine ⟨nodup_simulationStep_calls ops scene sim prev seconds, ?_, ?_, ?_, ?_, rfl, rfl,
    ?_, ?_⟩
  · intro id line
    rw [simulationStep_calls]
    simp only [List.mem_append, List.mem_flatMap, mem_currBusCalls, List.mem_map,
      contains_eq_false_iff, reduceCtorEq, and_false, exists_false, or_false,
      SceneCall.addBus.injEq]
    constructor
    · rintro ⟨k, hk, hp, rfl, rfl⟩
      exact ⟨hk, hp, rfl⟩
    · rintro ⟨hk, hp, rfl⟩
      exact ⟨id, hk, hp, rfl, rfl⟩
  · intro id pos
    rw [simulationStep_calls]
    simp only [List.mem_append, List.mem_flatMap, mem_currBusCalls, List.mem_map,
      reduceCtorEq, and_false, exists_false, or_false, false_or,
      SceneCall.updateBus.injEq]
    constructor
    · rintro ⟨k, hk, rfl, rfl⟩
      exact ⟨hk, rfl⟩
    · rintro ⟨hk, rfl⟩
      exact ⟨id, hk, rfl, rfl⟩
  · intro id
    rw [simulationStep_calls]
    simp only [List.mem_append, List.mem_flatMap, mem_currBusCalls, List.mem_map,
      List.mem_filter, reduceCtorEq, and_false, exists_false, or_false, false_or,
      SceneCall.removeBus.injEq, Bool.not_eq_true', contains_eq_false_iff]
    constructor
    · rintro ⟨k, ⟨hk, hc⟩, rfl⟩
      exact ⟨hk, hc⟩
    · rintro ⟨hk, hc⟩
      exact ⟨id, ⟨hk, hc⟩, rfl⟩
  · intro id hid hp
    obtain ⟨l1, l2, hl⟩ := List.append_of_mem hid
    have hc : prev.contains id = false := (contains_eq_false_iff prev id).2 hp
    rw [simulationStep_calls, hl, List.flatMap_append, List.flatMap_cons]
    refine ⟨l1.flatMap (currBusCalls ops (ops.Simulate sim seconds) prev
        (ops.move_log (ops.Simulate sim seconds))),
      l2.flatMap (currBusCalls ops (ops.Simulate sim seconds) prev
        (ops.move_log (ops.Simulate sim seconds))) ++
      (prev.keys.filter
        (fun k => !(ops.move_log (ops.Simulate sim seconds)).contains k)).map
          SceneCall.removeBus, ?_⟩
    simp [currBusCalls, hc]
  · intro id
    rw [simulationStep_calls, replayCalls_append, mem_replayCalls_remove, mem_replayCalls_curr]
    simp only [List.mem_filter, Bool.not_eq_true', contains_eq_false_iff, not_and, not_not]
    tauto
  · intro w hw
    simp [MainWindow.simulationStep, hw]

/-- C8, counterexample: the scene shows no bus and the previous move log is
empty, so the buses shown are the keys of the previous log; the tick produces
a log holding vehicle 1. The step issues `addBus(1, "L")` and
`updateBus(1, (3, 4))`, but `Map::addBus` has an empty body: the scene still
shows no bus, while the keys of the new log are `[1]`. -/
theorem simulationStep_shown_counterexample :
    (Map.mk [] none none).shownBuses = (QHash.empty : QHash QPoint).keys ∧
    (MainWindow.simulationStep oneBusOps ⟨some ⟨[], none, none⟩, QHash.empty, QHash.empty⟩ 1).2
      = [.addBus 1 "L", .updateBus 1 ⟨3, 4⟩] ∧
    (MainWindow.simulationStep oneBusOps
        ⟨some ⟨[], none, none⟩, QHash.empty, QHash.empty⟩ 1).1.prevMoveLog.keys = [1] ∧
    (MainWindow.simulationStep oneBusOps
        ⟨some ⟨[], none, none⟩, QHash.empty, QHash.empty⟩ 1).1.mapScene.map Map.shownBuses
      = some [] ∧
    (MainWindow.simulationStep oneBusOps
        ⟨some ⟨[], none, none⟩, QHash.empty, QHash.empty⟩ 1).1.mapScene.map Map.shownBuses
      ≠ some (MainWindow.simulationStep oneBusOps
        ⟨some ⟨[], none, none⟩, QHash.empty, QHash.empty⟩ 1).1.prevMoveLog.keys := by
  decide

end MHD
